import Mathlib

/-!
Verification of the fntwo motion-ingestion core (`router` and `facemotion3d`
packages) against its specification.  Go strings are byte sequences of ASCII
motion data here; they are embedded as `List Char`.  The Go standard-library
string operations used by the source (`strings.Split`, `strings.Contains`,
`strings.ReplaceAll`, `strconv.ParseFloat`) are embedded below; floating-point
values are embedded as exact rationals.
-/

namespace Fntwo

/-- A Go string (a byte sequence; the motion data handled by fntwo is ASCII). -/
abbrev GoStr := List Char

/-- `goStartsWith s u` holds when `u` is a prefix of `s` (Go `strings.HasPrefix`). -/
def goStartsWith : GoStr → GoStr → Bool
  | _, [] => true
  | [], _ :: _ => false
  | c :: s, d :: u => c = d && goStartsWith s u

/-- Index of the leftmost occurrence of `sub` in `s`, if any (Go `strings.Index`). -/
def findOcc (s sub : GoStr) : Option Nat :=
  if goStartsWith s sub then some 0
  else
    match s with
    | [] => none
    | _ :: rest => (findOcc rest sub).map (· + 1)

/-- Fuelled worker for `goSplit`: repeatedly cut `s` at the leftmost occurrence of
`sub`.  Each step removes at least one character when `sub ≠ []`, so fuel
`s.length + 1` always suffices. -/
def goSplitF : Nat → GoStr → GoStr → List GoStr
  | 0, s, _ => [s]
  | fuel + 1, s, sub =>
    match findOcc s sub with
    | none => [s]
    | some i => s.take i :: goSplitF fuel (s.drop (i + sub.length)) sub

/-- Go `strings.Split s sep`: pieces of `s` around each non-overlapping, leftmost
occurrence of `sep`; with empty `sep` Go splits after every character. -/
def goSplit (s sep : GoStr) : List GoStr :=
  if sep = [] then s.map (fun c => [c]) else goSplitF (s.length + 1) s sep

/-- Go `strings.Contains s sub`. -/
def goContains (s sub : GoStr) : Bool :=
  (findOcc s sub).isSome

/-- Join a list of strings with separator `sep` between consecutive elements. -/
def goJoinWith (sep : GoStr) : List GoStr → GoStr
  | [] => []
  | [x] => x
  | x :: xs => x ++ sep ++ goJoinWith sep xs

/-- Go `strings.ReplaceAll s old new` for non-empty `old`: replace every
non-overlapping, leftmost occurrence of `old` by `new` (the source never calls
it with empty `old`; Go would then interleave `new` between characters). -/
def goReplaceAll (s old new : GoStr) : GoStr :=
  if old = [] then s else goJoinWith new (goSplit s old)

/-- The key normalization `strings.ToUpper(key[0:1]) + key[1:]` of
`parseFrame` (camelCase to PascalCase): uppercase the first character.  The
`key[0:1]` byte slice panics on the empty string; callers guard for that. -/
def pascalize : GoStr → GoStr
  | [] => []
  | c :: rest => c.toUpper :: rest

/-- Numeric value of a digit string (most significant first). -/
def digitsVal (l : GoStr) : Nat :=
  l.foldl (fun a c => 10 * a + (c.toNat - 48)) 0

/-- Decimal mantissa `digits[.digits]` (at least one digit), as a rational. -/
def parseDecMantissa (s : GoStr) : Option ℚ :=
  match goSplit s ['.'] with
  | [ip] => if ip ≠ [] ∧ ip.all Char.isDigit then some (digitsVal ip) else none
  | [ip, fp] =>
    if (ip ≠ [] ∨ fp ≠ []) ∧ ip.all Char.isDigit ∧ fp.all Char.isDigit then
      some ((digitsVal ip : ℚ) + (digitsVal fp : ℚ) / (10 : ℚ) ^ fp.length)
    else none
  | _ => none

/-- Optionally signed decimal exponent. -/
def parseExp (s : GoStr) : Option ℤ :=
  if goStartsWith s ['+'] then
    (if s.drop 1 ≠ [] ∧ (s.drop 1).all Char.isDigit then some (digitsVal (s.drop 1)) else none)
  else if goStartsWith s ['-'] then
    (if s.drop 1 ≠ [] ∧ (s.drop 1).all Char.isDigit then some (-(digitsVal (s.drop 1) : ℤ))
     else none)
  else if s ≠ [] ∧ s.all Char.isDigit then some (digitsVal s) else none

/-- Unsigned part of a Go float: mantissa with optional `e`/`E` exponent. -/
def parseUnsigned (s : GoStr) : Option ℚ :=
  let body := s.map (fun c => if c = 'E' then 'e' else c)
  match goSplit body ['e'] with
  | [m] => parseDecMantissa m
  | [m, ex] =>
    match parseDecMantissa m, parseExp ex with
    | some q, some e => some (q * (10 : ℚ) ^ e)
    | _, _ => none
  | _ => none

/-- Go `strconv.ParseFloat s 64`, embedded exactly over ℚ for the
decimal forms `[+-]digits[.digits][(e|E)[+-]digits]` that the motion protocol
carries (hex mantissas, digit-group underscores and the Inf/NaN words are
outside the model). -/
def parseGoFloat (s : GoStr) : Option ℚ :=
  if goStartsWith s ['-'] then (parseUnsigned (s.drop 1)).map (fun q => -q)
  else if goStartsWith s ['+'] then parseUnsigned (s.drop 1)
  else parseUnsigned s

/-! ## The Facemotion3D frame parser (`parseFrame`) -/

/-- A write performed by `parseFrame` on the receiver's pose model
(`VRM.WriteBlendShape` / `VRM.WriteBone`).  A bone write records the three
Euler arguments the source passes to `quaternion.FromEuler` (after the
per-bone divisor and the negation of the third axis). -/
inductive WriteEvent
  | blendShape (key : GoStr) (value : ℚ)
  | bone (key : GoStr) (euler : ℚ × ℚ × ℚ)
deriving DecidableEq

/-- Name under which an event is written to the pose model. -/
def WriteEvent.key : WriteEvent → GoStr
  | .blendShape k _ => k
  | .bone k _ => k

/-- Whether the event is a bone write. -/
def WriteEvent.isBone : WriteEvent → Bool
  | .blendShape _ _ => false
  | .bone _ _ => true

/-- The field separator `"&"` of blend-shape entries. -/
def andStr : GoStr := ['&']

/-- The field separator `"#"` of bone entries. -/
def hashStr : GoStr := ['#']

/-- The vendor-reserved blend-shape marker `"FM_"`. -/
def fmStr : GoStr := "FM_".data

/-- The payload separator `"|"`. -/
def pipeStr : GoStr := ['|']

/-- The string `"="` removed from bone keys. -/
def eqStr : GoStr := ['=']

/-- The string `","` separating bone Euler values. -/
def commaStr : GoStr := [',']

/-- The bone name `"Head"`, which selects the smaller divisor 32. -/
def headStr : GoStr := "Head".data

/-- Bone half of the `parseFrame` loop body (`if strings.Contains(payloadStr, "#")`).
`acc` holds the blend-shape write already made by the same loop iteration.
`none` models a Go panic: the `key[0:1]` slice of an empty key, or the
`boneValues[0..2]` indexing when fewer than three values parsed. -/
def boneBranch (p : GoStr) (acc : List WriteEvent) : Option (List WriteEvent) :=
  if goContains p hashStr then
    let keyVal := goSplit p hashStr
    let rawKey := goReplaceAll (keyVal.headD []) eqStr []
    if rawKey = [] then none
    else
      let key := pascalize rawKey
      let boneValues := (goSplit (keyVal.getD 1 []) commaStr).filterMap parseGoFloat
      let divisor : ℚ := if key = headStr then 32 else 128
      match boneValues with
      | v0 :: v1 :: v2 :: _ =>
        some (acc ++ [.bone key (v0 / divisor, v1 / divisor, -(v2 / divisor))])
      | _ => none
  else some acc

/-- One iteration of the `parseFrame` loop over the `"|"`-separated payloads:
the blend-shape branch (`&`), whose `continue` statements skip the rest of the
iteration, followed by the bone branch (`#`).  `none` models a Go panic. -/
def processPayload (p : GoStr) : Option (List WriteEvent) :=
  if goContains p andStr then
    if goContains p fmStr then some []
    else if p = [] then some []
    else
      let singlePayload := goSplit p andStr
      let rawKey := singlePayload.headD []
      if rawKey = [] then none
      else
        match parseGoFloat (singlePayload.getD 1 []) with
        | none => some []
        | some value => boneBranch p [.blendShape (pascalize rawKey) (value / 100)]
  else boneBranch p []

/-- Process the payloads of a frame in order, collecting the pose-model writes;
a panic in any iteration aborts the whole call. -/
def processPayloads : List GoStr → Option (List WriteEvent)
  | [] => some []
  | p :: rest =>
    match processPayload p with
    | none => none
    | some evs => (processPayloads rest).map (fun tail => evs ++ tail)

/-- `parseFrame` of the `facemotion3d` package: split the frame on `"|"` and
process each payload. -/
def parseFrame (frameStr : GoStr) : Option (List WriteEvent) :=
  processPayloads (goSplit frameStr pipeStr)

/-! ## Euler-to-quaternion conversion (`quaternion.FromEuler`) -/

/-- A quaternion with real components, as produced for the frontend. -/
structure Quat where
  x : ℝ
  y : ℝ
  z : ℝ
  w : ℝ

/-- The dependency `westphae/quaternion`'s `FromEuler` (external to this
repository): the standard intrinsic Euler-to-quaternion composition from
half-angle sines and cosines, applied to the scaled angles that
`parseFrame` computes.  Only the zero case and argument congruence are used
by the claims. -/
noncomputable def fromEuler (phi theta psi : ℚ) : Quat :=
  let cphi := Real.cos ((phi : ℝ) / 2)
  let sphi := Real.sin ((phi : ℝ) / 2)
  let cth := Real.cos ((theta : ℝ) / 2)
  let sth := Real.sin ((theta : ℝ) / 2)
  let cpsi := Real.cos ((psi : ℝ) / 2)
  let spsi := Real.sin ((psi : ℝ) / 2)
  { w := cphi * cth * cpsi + sphi * sth * spsi
    x := sphi * cth * cpsi - cphi * sth * spsi
    y := cphi * sth * cpsi + sphi * cth * spsi
    z := cphi * cth * spsi - sphi * sth * cpsi }

/-- The identity rotation. -/
def identityQuat : Quat :=
  { x := 0, y := 0, z := 0, w := 1 }

/-! ## Frame extraction from the TCP read buffer (`listenTCP`, `matchFrames`) -/

/-- The framing sentinel of the Facemotion3D wire protocol. -/
def SENTINEL : GoStr := "___FACEMOTION3D".data

/-- `matchFrames.FindStringSubmatch` for the pattern
`(.*___FACEMOTION3D(.*?))___FACEMOTION3D` on a newline-free buffer, returning
capture groups 1 and 2.  Go's regexp is leftmost-first: the greedy leading
`.*` places the bracketing pair at the last two sentinel occurrences (the
sentinel cannot overlap itself), so group 1 is everything before the final
sentinel and group 2 is the text between the last two sentinels; there is a
match exactly when the buffer holds at least two sentinel occurrences, i.e.
when splitting on the sentinel gives at least three pieces. -/
def matchFrames (t : GoStr) : Option (GoStr × GoStr) :=
  let pieces := goSplit t SENTINEL
  if 3 ≤ pieces.length then
    some (goJoinWith SENTINEL pieces.dropLast, pieces.dropLast.getLastD [])
  else none

/-- One successful-read iteration of the `listenTCP` frame loop, after null
stripping: search the accumulated buffer; on a match, prune the buffer with
`strings.ReplaceAll(liveFrames, allBeforeDelimiter, "")` and hand group 2 to
`parseFrame`.  Returns the new buffer and the extracted frame, if any. -/
def readStep (buf : GoStr) : GoStr × Option GoStr :=
  match matchFrames buf with
  | none => (buf, none)
  | some (g1, frame) => (goReplaceAll buf g1 [], some frame)

/-! ## Receiver lifecycle (`listenTCP`, `sendThroughTCP`, `stopListening`) -/

/-- An accepted TCP connection (only its closed flag matters here). -/
structure Conn where
  closed : Bool
deriving DecidableEq

/-- The `facemotion3d` package state: the `serverEnabled` flag and the
`currentConn` package variable, whose Go zero value is the nil interface
(`none`). -/
structure FM3DState where
  serverEnabled : Bool
  currentConn : Option Conn
deriving DecidableEq

/-- Package state at startup: `serverEnabled = true`, `currentConn` nil. -/
def initFM3DState : FM3DState :=
  { serverEnabled := true, currentConn := none }

/-- `net.Conn.Close`. -/
def closeConn (_ : Conn) : Conn :=
  { closed := true }

/-- `stopListening`: clear `serverEnabled`, then call `currentConn.Close()`.
Calling a method on a nil Go interface panics, modelled by `none`. -/
def stopListening (st : FM3DState) : Option FM3DState :=
  let st' : FM3DState := { st with serverEnabled := false }
  match st'.currentConn with
  | none => none
  | some c => some { st' with currentConn := some (closeConn c) }

/-- The handshake datagram `"StopStreaming_FACEMOTION3D"`. -/
def stopStreamingMsg : GoStr := "StopStreaming_FACEMOTION3D".data

/-- The handshake datagram `"FACEMOTION3D_OtherStreaming|protocol=tcp"`. -/
def otherStreamingMsg : GoStr := "FACEMOTION3D_OtherStreaming|protocol=tcp".data

/-- Observable actions of one iteration of the `listenTCP` loop. -/
inductive NetEv
  | dialUDP
  | send (msg : GoStr)
  | sleepHalfSecond
  | acceptConn
  | readLoop
  | sleepThreeSeconds
deriving DecidableEq

/-- Outcome of the environment for one loop iteration: whether the UDP dial
and each of the two handshake writes succeed. -/
structure IterEnv where
  dialOk : Bool
  sendStopOk : Bool
  sendStartOk : Bool
deriving DecidableEq

/-- `sendThroughTCP`: dial the device over UDP, send the stop-streaming
message, sleep half a second, send the start-streaming message; any failure
returns an error after the actions performed so far. -/
def sendThroughTCP (e : IterEnv) : List NetEv × Bool :=
  if e.dialOk = false then ([.dialUDP], false)
  else if e.sendStopOk = false then ([.dialUDP, .send stopStreamingMsg], false)
  else if e.sendStartOk = false then
    ([.dialUDP, .send stopStreamingMsg, .sleepHalfSecond, .send otherStreamingMsg], false)
  else ([.dialUDP, .send stopStreamingMsg, .sleepHalfSecond, .send otherStreamingMsg], true)

/-- Whether the handshake of the iteration succeeds. -/
def handshakeOk (e : IterEnv) : Bool :=
  (sendThroughTCP e).2

/-- One iteration of the `listenTCP` server loop: run the handshake; on
failure log and sleep three seconds, then retry (`continue`); on success
accept an inbound connection, run the frame-read loop until disconnect, and
sleep three seconds before the next iteration. -/
def listenIter (e : IterEnv) : List NetEv :=
  let tr := sendThroughTCP e
  if tr.2 = false then tr.1 ++ [.sleepThreeSeconds]
  else tr.1 ++ [.acceptConn, .readLoop, .sleepThreeSeconds]

/-- The `listenTCP` loop body run once per iteration while `serverEnabled`
holds; `envs` lists the environment of each iteration executed before the
receiver is stopped. -/
def listenTCP (envs : List IterEnv) : List NetEv :=
  (envs.map listenIter).flatten

/-! ## The router (`router.New`): receiver switching -/

/-- The `/api/receiver/change` handler body, given the configured receiver
map and the current `activeReceiver`: an unknown name is logged and rejected
(`Bool` is `true` when the rejection was logged), a known name becomes the
active receiver. -/
def changeReceiver {R : Type} (receiverMap : GoStr → Option R) (active : Option R)
    (body : GoStr) : Option R × Bool :=
  match receiverMap body with
  | none => (active, true)
  | some r => (some r, false)

/-- The active-receiver pointer refers to a receiver contained in the
configured receiver map (or is nil). -/
def inReceiverMap {R : Type} (receiverMap : GoStr → Option R) (active : Option R) : Prop :=
  ∀ r, active = some r → ∃ k, receiverMap k = some r

/-- A two-receiver configuration used to instantiate the router theorems. -/
def receiverMapEx : GoStr → Option ℕ :=
  fun s => if s = "facemotion3d".data then some 0 else if s = "vmc".data then some 1 else none

/-- Whether the parse result contains a blend-shape write under name `k`. -/
def writesBlendNamed (r : Option (List WriteEvent)) (k : GoStr) : Bool :=
  match r with
  | none => false
  | some l => l.any (fun e => !e.isBone && e.key == k)

/-- The end-to-end example frame of the specification. -/
def exampleFrame : GoStr := "x=0&20|Head=#0,0,0,|".data

/-! ## Facts about the Go string operations -/

theorem goStartsWith_nil (s : GoStr) : goStartsWith s [] = true := by
  cases s <;> rfl

theorem goStartsWith_append (u v : GoStr) : goStartsWith (u ++ v) u = true := by
  induction u with
  | nil => simpa using goStartsWith_nil v
  | cons c rest ih => simp [goStartsWith, ih]

theorem goStartsWith_length_le {s u : GoStr} (h : goStartsWith s u = true) :
    u.length ≤ s.length := by
  induction u generalizing s with
  | nil => simp
  | cons d u ih =>
    cases s with
    | nil => simp [goStartsWith] at h
    | cons c s =>
      simp only [goStartsWith, Bool.and_eq_true] at h
      simpa using ih h.2

theorem findOcc_of_goStartsWith {s u : GoStr} (h : goStartsWith s u = true) :
    findOcc s u = some 0 := by
  unfold findOcc
  simp [h]

theorem findOcc_none_of_short {s u : GoStr} (h : s.length < u.length) :
    findOcc s u = none := by
  induction s with
  | nil =>
    cases u with
    | nil => simp at h
    | cons d u => rfl
  | cons c s ih =>
    unfold findOcc
    have h1 : goStartsWith (c :: s) u = false := by
      cases hs : goStartsWith (c :: s) u
      · rfl
      · exact absurd (goStartsWith_length_le hs) (by omega)
    rw [h1]
    simp only [Bool.false_eq_true, if_false]
    rw [ih (by simp at h ⊢; omega)]
    rfl

theorem goSplitF_of_findOcc_none {s u : GoStr} (h : findOcc s u = none) :
    ∀ fuel, goSplitF fuel s u = [s] := by
  intro fuel
  cases fuel with
  | zero => rfl
  | succ f =>
    unfold goSplitF
    rw [h]

theorem goSplitF_succ_some {s u : GoStr} {i : ℕ} (h : findOcc s u = some i) (n : ℕ) :
    goSplitF (n + 1) s u = s.take i :: goSplitF n (s.drop (i + u.length)) u := by
  rw [goSplitF, h]

theorem not_mem_of_findOcc_single_none {s : GoStr} {c : Char} (h : findOcc s [c] = none) :
    c ∉ s := by
  induction s with
  | nil => simp
  | cons d s ih =>
    unfold findOcc at h
    by_cases hd : d = c
    · subst hd
      have hpre : goStartsWith (d :: s) [d] = true := by simp [goStartsWith]
      simp [hpre] at h
    · have hpre : goStartsWith (d :: s) [c] = false := by
        simp [goStartsWith]
        exact fun hdc => absurd hdc hd
      rw [hpre] at h
      simp only [Bool.false_eq_true, if_false, Option.map_eq_none'] at h
      simp only [List.mem_cons, not_or]
      exact ⟨fun hcd => hd hcd.symm, ih h⟩

theorem not_mem_take_of_findOcc_single {s : GoStr} {c : Char} {i : ℕ}
    (h : findOcc s [c] = some i) : c ∉ s.take i := by
  induction s generalizing i with
  | nil =>
    have : findOcc ([] : GoStr) [c] = none := rfl
    rw [this] at h
    cases h
  | cons d s ih =>
    unfold findOcc at h
    by_cases hd : goStartsWith (d :: s) [c] = true
    · rw [if_pos hd] at h
      cases h
      simp
    · rw [if_neg (by simp [hd])] at h
      obtain ⟨j, hj, rfl⟩ := Option.map_eq_some'.mp h
      have hdc : ¬(d = c) := by
        intro hdc
        exact hd (by simp [goStartsWith, hdc])
      simp only [List.take_succ_cons, List.mem_cons, not_or]
      exact ⟨fun hcd => hdc hcd.symm, ih hj⟩

theorem goSplitF_single_not_mem {c : Char} :
    ∀ (fuel : ℕ) (s : GoStr), s.length < fuel → ∀ piece ∈ goSplitF fuel s [c], c ∉ piece := by
  intro fuel
  induction fuel with
  | zero => intro s hs; omega
  | succ f ih =>
    intro s hs piece hp
    unfold goSplitF at hp
    cases hf : findOcc s [c] with
    | none =>
      rw [hf] at hp
      simp only [List.mem_singleton] at hp
      subst hp
      exact not_mem_of_findOcc_single_none hf
    | some i =>
      rw [hf] at hp
      simp only [List.mem_cons] at hp
      rcases hp with rfl | hp
      · exact not_mem_take_of_findOcc_single hf
      · have hs' : s ≠ [] := by
          rintro rfl
          rw [show findOcc ([] : GoStr) [c] = none from rfl] at hf
          cases hf
        have hlen : (s.drop (i + 1)).length < f := by
          have : 1 ≤ s.length := by
            cases s with
            | nil => exact absurd rfl hs'
            | cons a l => simp
          simp only [List.length_drop]
          omega
        exact ih (s.drop (i + 1)) hlen piece hp

theorem mem_goJoinWith_nil {a : Char} :
    ∀ {ls : List GoStr}, a ∈ goJoinWith [] ls → ∃ l ∈ ls, a ∈ l := by
  intro ls
  induction ls with
  | nil => intro h; cases h
  | cons x xs ih =>
    cases xs with
    | nil =>
      intro h
      exact ⟨x, List.mem_singleton_self x, h⟩
    | cons y ys =>
      intro h
      rw [show goJoinWith [] (x :: y :: ys) = x ++ [] ++ goJoinWith [] (y :: ys) from rfl] at h
      simp only [List.append_nil, List.mem_append] at h
      rcases h with h | h
      · exact ⟨x, List.mem_cons_self x _, h⟩
      · obtain ⟨l, hl, ha⟩ := ih h
        exact ⟨l, List.mem_cons_of_mem x hl, ha⟩

theorem not_mem_goReplaceAll_single (s : GoStr) (c : Char) :
    c ∉ goReplaceAll s [c] [] := by
  intro hmem
  unfold goReplaceAll at hmem
  rw [if_neg (by simp)] at hmem
  obtain ⟨piece, hp, hc⟩ := mem_goJoinWith_nil hmem
  unfold goSplit at hp
  rw [if_neg (by simp)] at hp
  exact goSplitF_single_not_mem (s.length + 1) s (by omega) piece hp hc

/-- The writes a successful `boneBranch` call can return: either nothing was
appended (no `#` in the payload) or exactly one bone write under the
normalized key, whose raw key (after `=`-removal) is non-empty. -/
theorem boneBranch_events (p : GoStr) (acc l : List WriteEvent)
    (h : boneBranch p acc = some l) :
    l = acc ∨ ∃ v : ℚ × ℚ × ℚ,
      l = acc ++ [WriteEvent.bone
        (pascalize (goReplaceAll ((goSplit p hashStr).headD []) eqStr [])) v]
      ∧ goReplaceAll ((goSplit p hashStr).headD []) eqStr [] ≠ [] := by
  simp only [boneBranch] at h
  by_cases hc : goContains p hashStr = true
  · rw [if_pos hc] at h
    by_cases hr : goReplaceAll ((goSplit p hashStr).headD []) eqStr [] = []
    · rw [if_pos hr] at h
      cases h
    · rw [if_neg hr] at h
      rcases hbv : (goSplit ((goSplit p hashStr).getD 1 []) commaStr).filterMap parseGoFloat
        with _ | ⟨v0, _ | ⟨v1, _ | ⟨v2, vrest⟩⟩⟩
      · rw [hbv] at h; cases h
      · rw [hbv] at h; cases h
      · rw [hbv] at h; cases h
      · rw [hbv] at h
        exact Or.inr ⟨_, (Option.some.inj h).symm, hr⟩
  · rw [if_neg hc] at h
    exact Or.inl (Option.some.inj h).symm

/-! ## Claims -/

/-- C2: the spec requires that a malformed numeric field is skipped and that
`parseFrame` completes; in the source, a bone coordinate that fails
`strconv.ParseFloat` is skipped by `continue`, which leaves fewer than three
entries in `boneValues`, and the unconditional `boneValues[0..2]` indexing
then panics ("index out of range").  On the frame `"Head=#a,0,0"` the call
does not complete. -/
theorem parseFrame_malformed_bone_panics :
    parseFrame ("Head=#a,0,0".data) = none := by decide

/-- C7: `stopListening` is required to be safe even when `listenTCP` never
ran; in the source it calls `currentConn.Close()` where `currentConn` is the
package variable's zero value, the nil `net.Conn` interface, and a method
call on a nil interface panics.  Evaluated at that failing state. -/
theorem stopListening_nil_conn_panics :
    stopListening initFM3DState = none := rfl

/-- C4: a receiver-change request whose body names no configured receiver is
rejected with a logged rejection (`true`) and leaves the active receiver
unchanged. -/
theorem unknown_receiver_rejected {R : Type} (m : GoStr → Option R) (active : Option R)
    (body : GoStr) (h : m body = none) :
    changeReceiver m active body = (active, true) := by
  unfold changeReceiver
  rw [h]

/-- Witness for C4 at a concrete receiver map and request body. -/
theorem unknown_receiver_rejected_witness :
    changeReceiver receiverMapEx (some 0) ("osc".data) = (some 0, true) :=
  unknown_receiver_rejected receiverMapEx (some 0) ("osc".data) (by decide)

/-- C10: from `New`'s initial selection onward, the active receiver is in the
configured map — the initial pick is some entry of the map, and the change
handler either leaves the pointer unchanged or repoints it at a map entry. -/
theorem active_receiver_in_map {R : Type} (m : GoStr → Option R) (k0 : GoStr) (r0 : R)
    (h0 : m k0 = some r0) :
    inReceiverMap m (some r0)
      ∧ ∀ (active : Option R) (body : GoStr),
          inReceiverMap m active → inReceiverMap m (changeReceiver m active body).1 := by
  constructor
  · intro r hr
    obtain rfl : r0 = r := Option.some.inj hr
    exact ⟨k0, h0⟩
  · intro active body ha r hr
    unfold changeReceiver at hr
    cases hm : m body with
    | none =>
      rw [hm] at hr
      exact ha r hr
    | some r' =>
      rw [hm] at hr
      obtain rfl : r' = r := Option.some.inj hr
      exact ⟨body, hm⟩

/-- Witness for C10: the invariant holds at the initial pick and is kept by a
rejected change request. -/
theorem active_receiver_in_map_witness :
    inReceiverMap receiverMapEx (some 0)
      ∧ inReceiverMap receiverMapEx (changeReceiver receiverMapEx (some 0) ("osc".data)).1 := by
  have H := active_receiver_in_map receiverMapEx ("facemotion3d".data) 0 (by decide)
  exact ⟨H.1, H.2 (some 0) ("osc".data) H.1⟩

/-- C8: in every iteration of the listener loop, a failed handshake performs
no accept and no read loop and ends in the three-second backoff before the
retry, while a successful handshake performs, in order: the UDP dial, the
stop-streaming message, the half-second wait, the start-streaming message,
and only then the accept and the frame-read loop. -/
theorem listen_iteration_order (e : IterEnv) :
    (handshakeOk e = false →
        listenIter e = (sendThroughTCP e).1 ++ [NetEv.sleepThreeSeconds]
          ∧ NetEv.acceptConn ∉ listenIter e ∧ NetEv.readLoop ∉ listenIter e)
      ∧ (handshakeOk e = true →
        listenIter e
          = [NetEv.dialUDP, NetEv.send stopStreamingMsg, NetEv.sleepHalfSecond,
             NetEv.send otherStreamingMsg, NetEv.acceptConn, NetEv.readLoop,
             NetEv.sleepThreeSeconds]) := by
  obtain ⟨d, s1, s2⟩ := e
  cases d <;> cases s1 <;> cases s2 <;> decide

/-- Witness for C8: the full successful-iteration trace, and no accept on a
failed-handshake iteration. -/
theorem listen_iteration_order_witness :
    listenIter ⟨true, true, true⟩
        = [NetEv.dialUDP, NetEv.send stopStreamingMsg, NetEv.sleepHalfSecond,
           NetEv.send otherStreamingMsg, NetEv.acceptConn, NetEv.readLoop,
           NetEv.sleepThreeSeconds]
      ∧ NetEv.acceptConn ∉ listenIter ⟨true, false, true⟩ :=
  ⟨(listen_iteration_order ⟨true, true, true⟩).2 (by decide),
    ((listen_iteration_order ⟨true, false, true⟩).1 (by decide)).2.1⟩

/-- C1: a blend-shape field whose value string parses to `v ∈ [0, 100]` is
stored under the normalized name with weight exactly `v / 100`, which lies in
`[0, 1]`. -/
theorem blend_value_scaled_clamped (p key vstr : GoStr) (rest : List GoStr) (v : ℚ)
    (hand : goContains p andStr = true)
    (hfm : goContains p fmStr = false)
    (hsplit : goSplit p andStr = key :: vstr :: rest)
    (hkey : key ≠ [])
    (hv : parseGoFloat vstr = some v)
    (h0 : 0 ≤ v) (h100 : v ≤ 100)
    (hhash : goContains p hashStr = false) :
    processPayload p = some [WriteEvent.blendShape (pascalize key) (v / 100)]
      ∧ 0 ≤ v / 100 ∧ v / 100 ≤ 1 := by
  have hp : p ≠ [] := by
    rintro rfl
    rw [show goContains ([] : GoStr) andStr = false from rfl] at hand
    cases hand
  refine ⟨?_, div_nonneg h0 (by norm_num), by rw [div_le_one (by norm_num)]; linarith⟩
  simp only [processPayload, boneBranch, hand, hfm, hp, hsplit, hkey, hhash,
    List.headD, List.getD, List.get?_cons_succ, List.get?_cons_zero, Option.getD_some,
    if_true, if_false, Bool.false_eq_true, ite_false, ite_true]
  rw [hv]

/-- Witness for C1 on the field `"smile&42"`. -/
theorem blend_value_scaled_clamped_witness :
    processPayload ("smile&42".data)
        = some [WriteEvent.blendShape (pascalize ("smile".data)) ((42 : ℚ) / 100)]
      ∧ 0 ≤ (42 : ℚ) / 100 ∧ (42 : ℚ) / 100 ≤ 1 :=
  blend_value_scaled_clamped ("smile&42".data) ("smile".data) ("42".data) [] 42
    (by decide) (by decide) (by decide) (by decide) (by decide)
    (by norm_num) (by norm_num) (by decide)

/-- C5: for bone fields with identical value strings, the bone whose
normalized key is `"Head"` divides each Euler axis by 32 and every other bone
by 128 before the (third-axis-negated) Euler-to-quaternion conversion, so the
head bone's Euler angles are exactly 4 times the other bone's, and the
quaternion computed for the head equals the one computed from 4 times the
other bone's angles. -/
theorem head_divisor_ratio (pH pO valStr kH kO oKey : GoStr)
    (restH restO : List GoStr) (v0 v1 v2 : ℚ) (vrest : List ℚ)
    (handH : goContains pH andStr = false)
    (handO : goContains pO andStr = false)
    (hhashH : goContains pH hashStr = true)
    (hhashO : goContains pO hashStr = true)
    (hsplitH : goSplit pH hashStr = kH :: valStr :: restH)
    (hsplitO : goSplit pO hashStr = kO :: valStr :: restO)
    (hrawH : goReplaceAll kH eqStr [] ≠ [])
    (hheadH : pascalize (goReplaceAll kH eqStr []) = headStr)
    (hrawO : goReplaceAll kO eqStr [] ≠ [])
    (hoKey : pascalize (goReplaceAll kO eqStr []) = oKey)
    (hne : oKey ≠ headStr)
    (hvals : (goSplit valStr commaStr).filterMap parseGoFloat = v0 :: v1 :: v2 :: vrest) :
    processPayload pH = some [WriteEvent.bone headStr (v0 / 32, v1 / 32, -(v2 / 32))]
      ∧ processPayload pO = some [WriteEvent.bone oKey (v0 / 128, v1 / 128, -(v2 / 128))]
      ∧ v0 / 32 = 4 * (v0 / 128) ∧ v1 / 32 = 4 * (v1 / 128)
      ∧ -(v2 / 32) = 4 * (-(v2 / 128))
      ∧ fromEuler (v0 / 32) (v1 / 32) (-(v2 / 32))
          = fromEuler (4 * (v0 / 128)) (4 * (v1 / 128)) (4 * (-(v2 / 128))) := by
  have e0 : v0 / 32 = 4 * (v0 / 128) := by ring
  have e1 : v1 / 32 = 4 * (v1 / 128) := by ring
  have e2 : -(v2 / 32) = 4 * (-(v2 / 128)) := by ring
  refine ⟨?_, ?_, e0, e1, e2, by rw [e0, e1, e2]⟩
  · simp only [processPayload, boneBranch, handH, hhashH, hsplitH, List.headD, List.getD,
      List.get?_cons_succ, List.get?_cons_zero, Option.getD_some, List.nil_append,
      Bool.false_eq_true, if_false, if_true, ite_true, ite_false]
    simp only [hrawH, hheadH, eq_self_iff_true, if_true, ite_true, if_false, ite_false,
      List.nil_append]
    rw [hvals]
  · simp only [processPayload, boneBranch, handO, hhashO, hsplitO, List.headD, List.getD,
      List.get?_cons_succ, List.get?_cons_zero, Option.getD_some, List.nil_append,
      Bool.false_eq_true, if_false, if_true, ite_true, ite_false]
    simp only [hrawO, hoKey, hne, eq_self_iff_true, if_true, ite_true, if_false, ite_false,
      List.nil_append]
    rw [hvals]

/-- Witness for C5 on the fields `"Head=#1,2,3"` and `"Neck#1,2,3"`. -/
theorem head_divisor_ratio_witness :
    processPayload ("Head=#1,2,3".data)
        = some [WriteEvent.bone headStr ((1 : ℚ) / 32, (2 : ℚ) / 32, -((3 : ℚ) / 32))]
      ∧ processPayload ("Neck#1,2,3".data)
        = some [WriteEvent.bone ("Neck".data) ((1 : ℚ) / 128, (2 : ℚ) / 128, -((3 : ℚ) / 128))]
      ∧ (1 : ℚ) / 32 = 4 * ((1 : ℚ) / 128) ∧ (2 : ℚ) / 32 = 4 * ((2 : ℚ) / 128)
      ∧ -((3 : ℚ) / 32) = 4 * (-((3 : ℚ) / 128))
      ∧ fromEuler ((1 : ℚ) / 32) ((2 : ℚ) / 32) (-((3 : ℚ) / 32))
          = fromEuler (4 * ((1 : ℚ) / 128)) (4 * ((2 : ℚ) / 128)) (4 * (-((3 : ℚ) / 128))) :=
  head_divisor_ratio ("Head=#1,2,3".data) ("Neck#1,2,3".data) ("1,2,3".data)
    ("Head=".data) ("Neck".data) ("Neck".data) [] [] 1 2 3 []
    (by decide) (by decide) (by decide) (by decide) (by decide) (by decide)
    (by decide) (by decide) (by decide) (by decide) (by decide) (by decide)

/-- C6 counterexample: on the end-to-end example frame
`"x=0&20|Head=#0,0,0,|"` the source stores the blend shape under the name
`"X=0"` — the blend-shape branch uppercases `singlePayload[0] = "x=0"` but
does not remove `"="` (only the bone branch does) — so no blend shape named
`"X"` is written, contradicting the claim. -/
theorem exampleFrame_blend_key_not_X :
    writesBlendNamed (parseFrame exampleFrame) ("X".data) = false
      ∧ writesBlendNamed (parseFrame exampleFrame) ("X=0".data) = true := by
  decide

/-- C6 amended: parsing `"x=0&20|Head=#0,0,0,|"` stores blend shape `"X=0"`
(not `"X"`) with weight 0.2 and writes the rotation obtained from zero Euler
angles for bone `"Head"`, and zero Euler angles give the identity
quaternion. -/
theorem exampleFrame_parses_amended :
    parseFrame exampleFrame
      = some [WriteEvent.blendShape ("X=0".data) (1 / 5),
              WriteEvent.bone ("Head".data) (0, 0, 0)]
      ∧ fromEuler 0 0 0 = identityQuat := by
  constructor
  · have e : parseFrame exampleFrame
        = some [WriteEvent.blendShape ("X=0".data) (((20 : ℕ) : ℚ) / 100),
                WriteEvent.bone ("Head".data)
                  (((0 : ℕ) : ℚ) / 32, ((0 : ℕ) : ℚ) / 32, -(((0 : ℕ) : ℚ) / 32))] := rfl
    rw [e]
    norm_num
  · simp only [fromEuler, identityQuat]
    norm_num [Quat.mk.injEq]

/-- C3: on a complete buffer `pre ++ SENTINEL ++ B ++ SENTINEL` holding one
frame (so splitting on the sentinel gives exactly the pieces
`[pre, B, []]`), searching yields the single frame `B` with group 1
`pre ++ SENTINEL ++ B` — searching again without consuming is the same pure
function application and yields the same frame — and the consuming read
discards that group-1 prefix, everything up to and including the frame,
leaving only the trailing sentinel, on which no further match exists, so the
matched frame is not re-parsed.  The newline hypothesis keeps the buffer
inside the regexp model (`.` does not match a newline). -/
theorem frame_extraction_consumes_prefix (pre B t : GoStr)
    (ht : t = pre ++ SENTINEL ++ B ++ SENTINEL)
    (hsplit : goSplit t SENTINEL = [pre, B, []])
    (hne : pre ≠ [] ∨ B ≠ [])
    (hnl : '\n' ∉ t) :
    matchFrames t = some (pre ++ SENTINEL ++ B, B)
      ∧ readStep t = (SENTINEL, some B)
      ∧ matchFrames (readStep t).1 = none := by
  have hm : matchFrames t = some (pre ++ SENTINEL ++ B, B) := by
    simp only [matchFrames]
    rw [hsplit]
    have h3 : (3 : ℕ) ≤ [pre, B, ([] : GoStr)].length := by simp
    simp only [if_pos h3]
    rfl
  have hg1ne : pre ++ SENTINEL ++ B ≠ [] := by
    have hS : SENTINEL ≠ [] := by decide
    simp [hS]
  have hfo : findOcc t (pre ++ SENTINEL ++ B) = some 0 := by
    apply findOcc_of_goStartsWith
    rw [ht]
    exact goStartsWith_append _ _
  have hlen : SENTINEL.length < (pre ++ SENTINEL ++ B).length := by
    have hpos : 0 < pre.length ∨ 0 < B.length := by
      rcases hne with h | h
      · exact Or.inl (List.length_pos.mpr h)
      · exact Or.inr (List.length_pos.mpr h)
    simp only [List.length_append]
    omega
  have hprune : goReplaceAll t (pre ++ SENTINEL ++ B) [] = SENTINEL := by
    unfold goReplaceAll
    rw [if_neg hg1ne]
    unfold goSplit
    rw [if_neg hg1ne]
    rw [goSplitF_succ_some hfo]
    have hdrop : t.drop (0 + (pre ++ SENTINEL ++ B).length) = SENTINEL := by
      rw [Nat.zero_add, ht, List.drop_left]
    rw [hdrop]
    rw [goSplitF_of_findOcc_none (findOcc_none_of_short hlen)]
    rfl
  have hread : readStep t = (SENTINEL, some B) := by
    unfold readStep
    rw [hm]
    show (goReplaceAll t (pre ++ SENTINEL ++ B) [], some B) = (SENTINEL, some B)
    rw [hprune]
  refine ⟨hm, hread, ?_⟩
  rw [hread]
  show matchFrames SENTINEL = none
  decide

/-- Witness for C3 on the buffer
`"ab___FACEMOTION3Dx&20___FACEMOTION3D"`. -/
theorem frame_extraction_consumes_prefix_witness :
    matchFrames ("ab___FACEMOTION3Dx&20___FACEMOTION3D".data)
        = some ("ab".data ++ SENTINEL ++ "x&20".data, "x&20".data)
      ∧ readStep ("ab___FACEMOTION3Dx&20___FACEMOTION3D".data)
        = (SENTINEL, some ("x&20".data))
      ∧ matchFrames (readStep ("ab___FACEMOTION3Dx&20___FACEMOTION3D".data)).1 = none :=
  frame_extraction_consumes_prefix ("ab".data) ("x&20".data)
    ("ab___FACEMOTION3Dx&20___FACEMOTION3D".data)
    (by decide) (by decide) (by decide) (by decide)

/-- C9: every name a successful `processPayload` call writes to the pose
model is normalized: it is the PascalCase form of a non-empty raw key, where
a blend-shape write's raw key is the text before the first `"&"` and a bone
write's raw key is the text before the first `"#"` with every `"="`
character removed, so a bone key's raw form contains no `"="`. -/
theorem written_keys_normalized (p : GoStr) (l : List WriteEvent)
    (h : processPayload p = some l) :
    ∀ e ∈ l, ∃ raw : GoStr, raw ≠ [] ∧ e.key = pascalize raw
      ∧ (e.isBone = false → raw = (goSplit p andStr).headD [])
      ∧ (e.isBone = true →
          raw = goReplaceAll ((goSplit p hashStr).headD []) eqStr [] ∧ '=' ∉ raw) := by
  simp only [processPayload] at h
  by_cases hand : goContains p andStr = true
  · rw [if_pos hand] at h
    by_cases hfm : goContains p fmStr = true
    · rw [if_pos hfm] at h
      obtain rfl : ([] : List WriteEvent) = l := Option.some.inj h
      intro e he
      cases he
    · rw [if_neg hfm] at h
      by_cases hp : p = []
      · rw [if_pos hp] at h
        obtain rfl : ([] : List WriteEvent) = l := Option.some.inj h
        intro e he
        cases he
      · rw [if_neg hp] at h
        by_cases hk : (goSplit p andStr).headD [] = []
        · rw [if_pos hk] at h
          cases h
        · rw [if_neg hk] at h
          cases hv : parseGoFloat ((goSplit p andStr).getD 1 []) with
          | none =>
            rw [hv] at h
            obtain rfl : ([] : List WriteEvent) = l := Option.some.inj h
            intro e he
            cases he
          | some value =>
            rw [hv] at h
            rcases boneBranch_events p _ l h with rfl | ⟨v, rfl, hraw⟩
            · intro e he
              rcases List.mem_singleton.mp he with rfl
              refine ⟨(goSplit p andStr).headD [], hk, rfl, fun _ => rfl, fun hb => ?_⟩
              simp [WriteEvent.isBone] at hb
            · intro e he
              rcases List.mem_cons.mp he with rfl | he'
              · refine ⟨(goSplit p andStr).headD [], hk, rfl, fun _ => rfl, fun hb => ?_⟩
                simp [WriteEvent.isBone] at hb
              · rcases List.mem_singleton.mp he' with rfl
                refine ⟨goReplaceAll ((goSplit p hashStr).headD []) eqStr [], hraw, rfl,
                  fun hb => ?_, fun _ => ⟨rfl, not_mem_goReplaceAll_single _ '='⟩⟩
                simp [WriteEvent.isBone] at hb
  · rw [if_neg hand] at h
    rcases boneBranch_events p _ l h with rfl | ⟨v, rfl, hraw⟩
    · intro e he
      cases he
    · intro e he
      rw [List.nil_append] at he
      rcases List.mem_singleton.mp he with rfl
      refine ⟨goReplaceAll ((goSplit p hashStr).headD []) eqStr [], hraw, rfl,
        fun hb => ?_, fun _ => ⟨rfl, not_mem_goReplaceAll_single _ '='⟩⟩
      simp [WriteEvent.isBone] at hb

/-- Witness for C9 at the bone field `"Head=#1,2,3"`. -/
theorem written_keys_normalized_witness :
    ∃ raw : GoStr, raw ≠ []
      ∧ (WriteEvent.bone ("Head".data)
          (((1 : ℕ) : ℚ) / 32, ((2 : ℕ) : ℚ) / 32, -(((3 : ℕ) : ℚ) / 32))).key = pascalize raw
      ∧ ((WriteEvent.bone ("Head".data)
          (((1 : ℕ) : ℚ) / 32, ((2 : ℕ) : ℚ) / 32, -(((3 : ℕ) : ℚ) / 32))).isBone = false →
            raw = (goSplit ("Head=#1,2,3".data) andStr).headD [])
      ∧ ((WriteEvent.bone ("Head".data)
          (((1 : ℕ) : ℚ) / 32, ((2 : ℕ) : ℚ) / 32, -(((3 : ℕ) : ℚ) / 32))).isBone = true →
            raw = goReplaceAll ((goSplit ("Head=#1,2,3".data) hashStr).headD []) eqStr []
              ∧ '=' ∉ raw) :=
  written_keys_normalized ("Head=#1,2,3".data)
    [WriteEvent.bone ("Head".data) (((1 : ℕ) : ℚ) / 32, ((2 : ℕ) : ℚ) / 32, -(((3 : ℕ) : ℚ) / 32))]
    rfl _ (List.mem_singleton.mpr rfl)

end Fntwo
